import Mathlib

/-!
Verification of the DNS caching forwarder (dns_cache.py, dns_server.py).

Python byte strings and text strings handled by the codec are modelled as
`List Nat` (one element per byte / character code point); wall-clock times
(Python floats) are modelled as `Rat`; Python ints as `Int`.  Python dicts
are modelled as association lists in insertion order: assignment overwrites
the first matching key in place and otherwise appends, and lookup returns
the first match, exactly as Python dicts behave (which never hold a
duplicate key).
-/

/-! ## Record Store (dns_cache.py) -/

/-- A cache entry `(expire_time, ttl)`, as stored in the inner dicts. -/
abbrev Entry := Rat × Int

/-- An inner dict `value → (expire_time, ttl)`. -/
abbrev Bucket := List (String × Entry)

/-- An outer dict `key → inner dict`, i.e. one of the three cache tables. -/
abbrev Table := List (String × Bucket)

/-- Python dict read `d.get(k)` / `d[k]`: first binding for the key. -/
def dictGet {α : Type} : List (String × α) → String → Option α
  | [], _ => none
  | (k0, v) :: rest, k => if k0 = k then some v else dictGet rest k

/-- Python dict write `d[k] = v`: overwrite the first binding in place,
or append a new binding at the end. -/
def dictSet {α : Type} : List (String × α) → String → α → List (String × α)
  | [], k, v => [(k, v)]
  | (k0, v0) :: rest, k, v =>
    if k0 = k then (k, v) :: rest else (k0, v0) :: dictSet rest k v

/-- `DNSCache._add_to_dict`: ensure the key has a bucket, then store
`(expire_time, ttl)` under the value. -/
def add_to_dict (d : Table) (key value : String) (expire : Rat) (ttl : Int) : Table :=
  dictSet d key (dictSet ((dictGet d key).getD []) value (expire, ttl))

/-- `DNSCache._get_valid_entries`: `None` for an absent key, else the values
whose `expire > current_time`, or `None` if that list is empty. -/
def get_valid_entries (d : Table) (key : String) (now : Rat) : Option (List String) :=
  match dictGet d key with
  | none => none
  | some bucket =>
    let valid := (bucket.filter (fun e => now < e.2.1)).map (fun e => e.1)
    if valid = [] then none else some valid

/-- `DNSCache._cleanup_dict`: filter every bucket down to unexpired entries,
then delete keys whose bucket became empty. -/
def cleanup_dict (d : Table) (now : Rat) : Table :=
  (d.map (fun kb => (kb.1, kb.2.filter (fun e => now < e.2.1)))).filter
    (fun kb => !kb.2.isEmpty)

/-- `DNSCache._restore_from_serialized`: every key of the snapshot is kept
(`restored[key] = {}` runs unconditionally); an entry survives, shifted by
`time_passed`, iff its shifted expiry is strictly in the future. -/
def restore_from_serialized (s : Table) (time_passed : Rat) (now : Rat) : Table :=
  s.map (fun kb =>
    (kb.1, kb.2.filterMap (fun e =>
      if now < e.2.1 - time_passed then some (e.1, (e.2.1 - time_passed, e.2.2))
      else none)))

/-- The mutable state of a `DNSCache` object: three tables. -/
structure DNSCache where
  domain_to_ip : Table
  ip_to_domain : Table
  ns_records : Table
deriving DecidableEq

/-- The on-disk JSON document: the three serialized tables plus the
wall-clock `timestamp` recorded at save time. -/
structure Snapshot where
  domain_to_ip : Table
  ip_to_domain : Table
  ns_records : Table
  timestamp : Rat
deriving DecidableEq

/-- `DNSCache.add_record`: insert into both the forward and reverse tables
with `expire_time = now + ttl`. -/
def add_record (c : DNSCache) (domain ip : String) (ttl : Int) (now : Rat) : DNSCache :=
  { c with
    domain_to_ip := add_to_dict c.domain_to_ip domain ip (now + (ttl : Rat)) ttl
    ip_to_domain := add_to_dict c.ip_to_domain ip domain (now + (ttl : Rat)) ttl }

/-- `DNSCache.add_ns_record`. -/
def add_ns_record (c : DNSCache) (domain ns : String) (ttl : Int) (now : Rat) : DNSCache :=
  { c with ns_records := add_to_dict c.ns_records domain ns (now + (ttl : Rat)) ttl }

/-- `DNSCache.get_ip`. -/
def get_ip (c : DNSCache) (domain : String) (now : Rat) : Option (List String) :=
  get_valid_entries c.domain_to_ip domain now

/-- `DNSCache.get_domain`. -/
def get_domain (c : DNSCache) (ip : String) (now : Rat) : Option (List String) :=
  get_valid_entries c.ip_to_domain ip now

/-- `DNSCache.get_nameservers`. -/
def get_nameservers (c : DNSCache) (domain : String) (now : Rat) : Option (List String) :=
  get_valid_entries c.ns_records domain now

/-- `DNSCache.cleanup`: eager sweep of all three tables. -/
def cleanup (c : DNSCache) (now : Rat) : DNSCache :=
  ⟨cleanup_dict c.domain_to_ip now, cleanup_dict c.ip_to_domain now,
    cleanup_dict c.ns_records now⟩

/-- `DNSCache.save_to_file`: serialize the three tables (value-preserving)
together with the current time. -/
def save_to_file (c : DNSCache) (now : Rat) : Snapshot :=
  ⟨c.domain_to_ip, c.ip_to_domain, c.ns_records, now⟩

/-- `DNSCache.load_from_file`: compute `time_passed` from the stored
timestamp and replace (not merge) all three tables with their restored
versions.  The previous state `c` is discarded. -/
def load_from_file (_c : DNSCache) (snap : Snapshot) (now : Rat) : DNSCache :=
  let tp := now - snap.timestamp
  ⟨restore_from_serialized snap.domain_to_ip tp now,
    restore_from_serialized snap.ip_to_domain tp now,
    restore_from_serialized snap.ns_records tp now⟩

/-- The `(expire, ttl)` entry recorded for value `v` under key `k`, if any. -/
def entryIn (t : Table) (k v : String) : Option Entry :=
  (dictGet t k).bind (fun b => dictGet b v)

/-- Well-formedness every state reached through Python dicts satisfies:
no bucket holds two entries for the same value string. -/
def WFTable (t : Table) : Prop :=
  ∀ kb ∈ t, ((kb.2.map Prod.fst).Nodup)

/-- No key of the table maps to an empty bucket. -/
def NoEmptyBuckets (d : Table) : Prop := ∀ kb ∈ d, kb.2 ≠ []

/-! ## Message Codec (dns_server.py) -/

/-- Result of running a piece of Python code under a fuel bound:
a returned value, a raised exception, or fuel exhaustion (meaning the code
ran longer than the given bound — if this happens for every bound, the code
diverges). -/
inductive Res (α : Type) where
  | ok : α → Res α
  | exn : Res α
  | spin : Res α
deriving DecidableEq

/-- `DNSServer._parse_name`, with the accumulated `name` list kept as a list
of parts; the Python function joins the parts with a dot at the end.
Each loop iteration / recursive pointer chase consumes one unit of fuel.
An out-of-range byte access or a short pointer slice raises (`IndexError` /
`struct.error`), as does a non-ASCII label byte (`UnicodeDecodeError`). -/
def parse_name_parts (data : List Nat) : Nat → Nat → Res (List (List Nat) × Nat)
  | _, 0 => .spin
  | off, fuel + 1 =>
    match data.get? off with
    | none => .exn
    | some len =>
      if len = 0 then .ok ([], off + 1)
      else if len &&& 0xc0 = 0xc0 then
        match data.get? (off + 1) with
        | none => .exn
        | some b2 =>
          match parse_name_parts data ((len * 256 + b2) &&& 0x3fff) fuel with
          | .ok (parts, _) => .ok ([List.intercalate [46] parts], off + 2)
          | .exn => .exn
          | .spin => .spin
      else
        let label := (data.drop (off + 1)).take len
        if label.all (fun c => c < 128) then
          match parse_name_parts data (off + 1 + len) fuel with
          | .ok (parts, noff) => .ok (label :: parts, noff)
          | .exn => .exn
          | .spin => .spin
        else .exn

/-- `DNSServer._parse_name`: returns `('.'.join(name), offset)`. -/
def parse_name (data : List Nat) (off fuel : Nat) : Res (List Nat × Nat) :=
  match parse_name_parts data off fuel with
  | .ok (parts, noff) => .ok (List.intercalate [46] parts, noff)
  | .exn => .exn
  | .spin => .spin

/-- `DNSServer._encode_name`: split on the dot, emit a length byte plus the
raw label bytes per part, then a zero terminator.  `struct.pack` raises for
a part longer than 255 bytes and `str.encode` raises on a non-ASCII byte;
no other validation happens. -/
def encode_name (name : List Nat) : Option (List Nat) :=
  let parts := name.splitOn 46
  if parts.all (fun p => p.length < 256 && p.all (fun c => c < 128)) then
    some ((parts.map (fun p => p.length :: p)).flatten ++ [0])
  else none

/-- `struct.pack` with format `!H`: two big-endian bytes, raising on a value
that does not fit. -/
def pack16 (n : Nat) : Option (List Nat) :=
  if n < 65536 then some [n / 256, n % 256] else none

/-- Numeric value of a decimal digit string. -/
def decimal_value (p : List Nat) : Nat :=
  p.foldl (fun acc c => acc * 10 + (c - 48)) 0

/-- Whether a byte string is a non-empty run of decimal digits denoting a
value below 256. -/
def is_dec_byte (p : List Nat) : Bool :=
  !p.isEmpty && p.all (fun c => 48 ≤ c && c ≤ 57) && decimal_value p < 256

/-- Models the C library function behind `socket.inet_aton`, restricted to
the plain four-part decimal dotted-quad form the server feeds it: four
decimal components below 256 become four bytes, anything else raises. -/
def inet_aton (s : List Nat) : Option (List Nat) :=
  let parts := s.splitOn 46
  if parts.length = 4 && parts.all is_dec_byte then
    some (parts.map decimal_value)
  else none

/-- One iteration of `DNSServer._build_answers_section`: the record bytes
appended for one answer value (empty for an unsupported qtype). -/
def answer_record (qtype : List Nat) (answer : List Nat) : Option (List Nat) :=
  if qtype = [0, 1] then
    (inet_aton answer).map
      (fun ip => [0xc0, 0x0c, 0, 1, 0, 1, 0, 0, 0, 0x3c, 0, 4] ++ ip)
  else if qtype = [0, 0x0c] then
    (encode_name answer).bind (fun enc =>
      (pack16 enc.length).map
        (fun lb => [0xc0, 0x0c, 0, 0x0c, 0, 1, 0, 0, 0, 0x3c] ++ lb ++ enc))
  else some []

/-- `DNSServer._build_answers_section`: concatenate one record per answer. -/
def build_answers_section (qtype : List Nat) : List (List Nat) → Option (List Nat)
  | [] => some []
  | a :: rest =>
    (answer_record qtype a).bind (fun r =>
      (build_answers_section qtype rest).map (fun s => r ++ s))

/-- `DNSServer._build_response`: header, question, answers section. -/
def build_response (tid query qtype : List Nat) (answers : List (List Nat)) :
    Option (List Nat) :=
  (pack16 answers.length).bind (fun cnt =>
    (encode_name query).bind (fun enc =>
      (build_answers_section qtype answers).map (fun sec =>
        tid ++ [0x81, 0x80, 0x00, 0x01] ++ cnt ++ [0, 0, 0, 0] ++
          enc ++ qtype ++ [0, 1] ++ sec)))

/-- The 16-bit flags word of a DNS message: bytes 2 and 3, big-endian. -/
def header_flags (msg : List Nat) : Option Nat :=
  match msg.get? 2, msg.get? 3 with
  | some a, some b => some (a * 256 + b)
  | _, _ => none

/-! ## Helper lemmas -/

/-- A lookup on any table state returns `None` or a non-empty list. -/
theorem get_valid_entries_cases (d : Table) (k : String) (now : Rat) :
    get_valid_entries d k now = none ∨
      ∃ v l, get_valid_entries d k now = some (v :: l) := by
  unfold get_valid_entries
  cases hfind : dictGet d k with
  | none => exact Or.inl rfl
  | some bucket =>
    simp only
    by_cases hv : (bucket.filter (fun e => now < e.2.1)).map (fun e => e.1) = []
    · exact Or.inl (by simp [hv])
    · right
      cases hl : (bucket.filter (fun e => now < e.2.1)).map (fun e => e.1) with
      | nil => exact absurd hl hv
      | cons v l => exact ⟨v, l, by simp [hv, hl]⟩

/-- A Python dict write never produces an empty dict. -/
theorem dictSet_ne_nil {α : Type} (d : List (String × α)) (k : String) (v : α) :
    dictSet d k v ≠ [] := by
  cases d with
  | nil => simp [dictSet]
  | cons kv rest =>
    obtain ⟨k0, v0⟩ := kv
    simp only [dictSet]
    split <;> simp

/-- Every binding of `dictSet d k v` is the new binding or an old one. -/
theorem mem_dictSet {α : Type} (d : List (String × α)) (k : String) (v : α) :
    ∀ kb ∈ dictSet d k v, kb = (k, v) ∨ kb ∈ d := by
  induction d with
  | nil => intro kb h; simp only [dictSet, List.mem_singleton] at h; exact Or.inl h
  | cons kv rest ih =>
    obtain ⟨k0, v0⟩ := kv
    intro kb h
    simp only [dictSet] at h
    split at h
    · rcases List.mem_cons.1 h with h1 | h1
      · exact Or.inl h1
      · exact Or.inr (List.mem_cons_of_mem _ h1)
    · rcases List.mem_cons.1 h with h1 | h1
      · exact Or.inr (h1 ▸ List.mem_cons_self _ _)
      · rcases ih kb h1 with h2 | h2
        · exact Or.inl h2
        · exact Or.inr (List.mem_cons_of_mem _ h2)

/-- A dict write makes the written binding the one its key retrieves. -/
theorem dictGet_dictSet_self {α : Type} (d : List (String × α)) (k : String) (v : α) :
    dictGet (dictSet d k v) k = some v := by
  induction d with
  | nil => simp [dictSet, dictGet]
  | cons kv rest ih =>
    obtain ⟨k0, v0⟩ := kv
    by_cases h : k0 = k <;> simp [dictSet, dictGet, h, ih]

/-- The written binding is a member of the written dict. -/
theorem mem_dictSet_self {α : Type} (d : List (String × α)) (k : String) (v : α) :
    (k, v) ∈ dictSet d k v := by
  induction d with
  | nil => simp [dictSet]
  | cons kv rest ih =>
    obtain ⟨k0, v0⟩ := kv
    simp only [dictSet]
    split
    · exact List.mem_cons_self _ _
    · exact List.mem_cons_of_mem _ ih

/-- A key absent from the key list retrieves nothing. -/
theorem dictGet_eq_none {α : Type} (d : List (String × α)) (k : String)
    (h : k ∉ d.map Prod.fst) : dictGet d k = none := by
  induction d with
  | nil => rfl
  | cons kv rest ih =>
    obtain ⟨k0, v0⟩ := kv
    simp only [List.map_cons, List.mem_cons] at h
    push_neg at h
    simp only [dictGet, if_neg (Ne.symm h.1)]
    exact ih h.2

/-- A retrieved binding is a member. -/
theorem dictGet_mem {α : Type} {d : List (String × α)} {k : String} {v : α}
    (h : dictGet d k = some v) : (k, v) ∈ d := by
  induction d with
  | nil => cases h
  | cons kv rest ih =>
    obtain ⟨k0, v0⟩ := kv
    simp only [dictGet] at h
    split at h
    · rename_i heq
      cases h
      exact heq ▸ List.mem_cons_self _ _
    · exact List.mem_cons_of_mem _ (ih h)

/-- In a dict with no duplicate keys, after writing `(k, v)` the only
binding whose key is `k` is `(k, v)`. -/
theorem dictSet_unique_key {α : Type} (d : List (String × α)) (k : String) (v : α)
    (hnd : (d.map Prod.fst).Nodup) :
    ∀ p ∈ dictSet d k v, p.1 = k → p = (k, v) := by
  induction d with
  | nil =>
    intro p hp _
    simpa [dictSet] using hp
  | cons kv rest ih =>
    obtain ⟨k0, v0⟩ := kv
    simp only [List.map_cons, List.nodup_cons] at hnd
    obtain ⟨hnot, hnd2⟩ := hnd
    intro p hp hk
    simp only [dictSet] at hp
    split at hp
    · rename_i heq
      rcases List.mem_cons.1 hp with h1 | h1
      · exact h1
      · exfalso
        apply hnot
        rw [heq]
        rw [← hk]
        exact List.mem_map_of_mem Prod.fst h1
    · rename_i hne
      rcases List.mem_cons.1 hp with h1 | h1
      · exfalso; apply hne; rw [← hk, h1]
      · exact ih hnd2 p h1 hk

/-- On the two-byte message `c0 00` (a compression pointer to offset 0),
each recursion step reproduces the same call, so no fuel suffices. -/
theorem parse_name_parts_self_pointer (fuel : Nat) :
    parse_name_parts [0xc0, 0x00] 0 fuel = Res.spin := by
  induction fuel with
  | zero => rfl
  | succ n ih =>
    simp only [parse_name_parts, List.get?]
    norm_num
    rw [show ((49152 : Nat) &&& 16383) = 0 from by decide, ih]

/-! ## Claim theorems -/

/-- C1 (code_bug evidence): started at offset 0 on the message whose first
two bytes form a compression pointer back to offset 0, `_parse_name`
neither returns a value nor raises within any recursion bound: the
self-referential pointer causes unbounded recursion (in CPython, recursion
until the interpreter's recursion limit) instead of the clean
`MalformedMessage` protocol error the specification requires. -/
theorem parse_name_self_pointer_diverges (fuel : Nat) :
    parse_name [0xc0, 0x00] 0 fuel = Res.spin := by
  unfold parse_name
  rw [parse_name_parts_self_pointer]

/-- C2 (code_bug evidence): `_encode_name` performs no label-length or
total-length validation: a name consisting of one 64-byte label is encoded
successfully (length byte 64, then the raw label, then the terminator)
instead of failing with `InvalidLabel`. -/
theorem encode_name_accepts_64_byte_label :
    encode_name (List.replicate 64 97) = some (64 :: (List.replicate 64 97 ++ [0])) := by
  decide

/-- C3 counterexample: insert one record at time 0 with ttl 10 (a state
reachable by a single `add_record`), save at time 0, load at time 100: the
restored forward table still contains the key, now mapped to an empty
value-set, so the invariant "every present key maps to a non-empty
value-set" fails after `load_from_file`. -/
theorem restore_leaves_empty_bucket :
    dictGet (load_from_file (add_record ⟨[], [], []⟩ "example.com" "93.184.216.34" 10 0)
        (save_to_file (add_record ⟨[], [], []⟩ "example.com" "93.184.216.34" 10 0) 0)
        100).domain_to_ip "example.com" = some [] := by
  simp only [load_from_file, save_to_file, add_record, add_to_dict, restore_from_serialized,
    dictGet, dictSet, List.map]
  norm_num [dictGet]

/-- C3 amended: insert (`_add_to_dict`) and the eager sweep
(`_cleanup_dict`) do preserve "every present key maps to a non-empty
value-set", and a lookup never returns an empty sequence; but restore
(`_restore_from_serialized`) does not preserve it — see the
counterexample. -/
theorem insert_sweep_no_empty_buckets (d : Table) (now : Rat) (key value : String)
    (e : Rat) (t : Int) (h : NoEmptyBuckets d) :
    NoEmptyBuckets (add_to_dict d key value e t) ∧
      NoEmptyBuckets (cleanup_dict d now) ∧
      (get_valid_entries d key now = none ∨
        ∃ v l, get_valid_entries d key now = some (v :: l)) := by
  refine ⟨?_, ?_, get_valid_entries_cases d key now⟩
  · intro kb hkb
    rcases mem_dictSet _ _ _ kb hkb with h1 | h1
    · rw [h1]
      exact dictSet_ne_nil _ _ _
    · exact h kb h1
  · intro kb hkb
    unfold cleanup_dict at hkb
    rw [List.mem_filter] at hkb
    intro hnil
    rw [hnil] at hkb
    simp at hkb

/-- C3 amended, witness. -/
theorem insert_sweep_no_empty_buckets_witness :
    NoEmptyBuckets (add_to_dict [] "k" "v" 5 5) ∧
      NoEmptyBuckets (cleanup_dict [] 0) ∧
      (get_valid_entries [] "k" 0 = none ∨
        ∃ v l, get_valid_entries [] "k" 0 = some (v :: l)) :=
  insert_sweep_no_empty_buckets [] 0 "k" "v" 5 5 (by intro kb hkb; cases hkb)

/-- C10: on any cache state — including ill-formed states in which a key
maps to an empty value-set — each of `get_ip`, `get_domain` and
`get_nameservers` returns either `None` or a non-empty list, never an
empty sequence. -/
theorem lookups_never_return_empty (c : DNSCache) (k : String) (now : Rat) :
    (get_ip c k now = none ∨ ∃ v l, get_ip c k now = some (v :: l)) ∧
    (get_domain c k now = none ∨ ∃ v l, get_domain c k now = some (v :: l)) ∧
    (get_nameservers c k now = none ∨
      ∃ v l, get_nameservers c k now = some (v :: l)) :=
  ⟨get_valid_entries_cases _ _ _, get_valid_entries_cases _ _ _,
    get_valid_entries_cases _ _ _⟩

/-- C4 counterexample: in a concrete built response the flags word is
`0x8180`, and its recursion-available bit (mask `0x80`) is set — refuting
the claim that the recursion-available bit is not set. -/
theorem build_response_flags_ra_set :
    (build_response [0, 0] [97] [0, 1] [[49, 46, 50, 46, 51, 46, 52]]).bind header_flags
        = some 0x8180 ∧ 0x8180 &&& 0x80 = 0x80 := by
  constructor
  · decide
  · decide

/-- C5 counterexample: in a concrete built response for the query name
"ab", the bytes at offset 12 are `02 61` — the first bytes of the freshly
length-prefix-encoded query name — and not the compression pointer
`c0 0c` the claim asserts. -/
theorem build_response_question_not_pointer :
    (build_response [0, 0] [97, 98] [0, 1] [[49, 46, 50, 46, 51, 46, 52]]).map
        (fun msg => (msg.drop 12).take 2) = some [2, 97] ∧
      ([2, 97] : List Nat) ≠ [0xc0, 0x0c] := by
  constructor
  · decide
  · decide

/-- C6: TTL monotonicity.  After `add_record(domain, ip, ttl)` executed at
time `t0` (so the stored expiry is `t0 + ttl`), `get_ip` at any query time
in `[t0, t0 + ttl)` returns a list containing `ip`, and at any query time
at or after `t0 + ttl` the returned list (if any) omits `ip`. -/
theorem ttl_monotonicity (c : DNSCache) (domain ip : String) (ttl : Int) (t0 now : Rat)
    (hwf : WFTable c.domain_to_ip) :
    (t0 ≤ now → now < t0 + (ttl : Rat) →
      ∃ l, get_ip (add_record c domain ip ttl t0) domain now = some l ∧ ip ∈ l) ∧
    (t0 + (ttl : Rat) ≤ now →
      ∀ l, get_ip (add_record c domain ip ttl t0) domain now = some l → ip ∉ l) := by
  set b0 : Bucket := (dictGet c.domain_to_ip domain).getD [] with hb0
  set nb : Bucket := dictSet b0 ip (t0 + (ttl : Rat), ttl) with hnb
  have hget : dictGet (add_record c domain ip ttl t0).domain_to_ip domain = some nb := by
    simp only [add_record, add_to_dict, hnb, hb0]
    exact dictGet_dictSet_self _ _ _
  have hgv : get_ip (add_record c domain ip ttl t0) domain now
      = (if ((nb.filter (fun e => now < e.2.1)).map (fun e => e.1)) = [] then none
         else some ((nb.filter (fun e => now < e.2.1)).map (fun e => e.1))) := by
    unfold get_ip get_valid_entries
    rw [hget]
  constructor
  · intro _ h2
    have hmem : (ip, (t0 + (ttl : Rat), ttl)) ∈ nb := mem_dictSet_self _ _ _
    have hmemf : ip ∈ (nb.filter (fun e => now < e.2.1)).map (fun e => e.1) := by
      refine List.mem_map.2 ⟨(ip, (t0 + (ttl : Rat), ttl)), List.mem_filter.2 ⟨hmem, ?_⟩, rfl⟩
      simpa using h2
    have hne : (nb.filter (fun e => now < e.2.1)).map (fun e => e.1) ≠ [] :=
      fun h => by rw [h] at hmemf; cases hmemf
    refine ⟨_, ?_, hmemf⟩
    rw [hgv, if_neg hne]
  · intro h2 l hl hipl
    have hnd : (b0.map Prod.fst).Nodup := by
      rcases hd : dictGet c.domain_to_ip domain with _ | b
      · simp [hb0, hd]
      · have := hwf _ (dictGet_mem hd)
        simpa [hb0, hd] using this
    rw [hgv] at hl
    by_cases hcase : ((nb.filter (fun e => now < e.2.1)).map (fun e => e.1)) = []
    · rw [if_pos hcase] at hl; cases hl
    · rw [if_neg hcase] at hl
      cases hl
      obtain ⟨e, hef, he1⟩ := List.mem_map.1 hipl
      have hein := (List.mem_filter.1 hef).1
      have hecond := (List.mem_filter.1 hef).2
      have heq : e = (ip, (t0 + (ttl : Rat), ttl)) :=
        dictSet_unique_key b0 ip (t0 + (ttl : Rat), ttl) hnd e hein he1
      rw [heq] at hecond
      simp only [decide_eq_true_eq] at hecond
      exact absurd hecond (not_lt.2 h2)

/-- C6, witness: ttl 10 inserted at time 0 is visible at time 5 and gone
at time 12. -/
theorem ttl_monotonicity_witness :
    (∃ l, get_ip (add_record ⟨[], [], []⟩ "a" "b" 10 0) "a" 5 = some l ∧ "b" ∈ l) ∧
    (∀ l, get_ip (add_record ⟨[], [], []⟩ "a" "b" 10 0) "a" 12 = some l → "b" ∉ l) := by
  constructor
  · exact (ttl_monotonicity ⟨[], [], []⟩ "a" "b" 10 0 5 (by intro kb hkb; cases hkb)).1
      (by norm_num) (by norm_num)
  · exact (ttl_monotonicity ⟨[], [], []⟩ "a" "b" 10 0 12 (by intro kb hkb; cases hkb)).2
      (by norm_num)

/-- Reading a key from a dict whose values were mapped in place. -/
theorem dictGet_map_value {α β : Type} (f : α → β) (d : List (String × α)) (k : String) :
    dictGet (d.map (fun kb => (kb.1, f kb.2))) k = (dictGet d k).map f := by
  induction d with
  | nil => rfl
  | cons kv rest ih =>
    obtain ⟨k0, v0⟩ := kv
    simp only [List.map_cons, dictGet]
    split
    · rfl
    · exact ih

/-- Reading a value from a bucket filtered entry-wise by a key-preserving
partial map, when the bucket has no duplicate keys. -/
theorem dictGet_filterMap (b : Bucket) (v : String) (P : Entry → Prop)
    [DecidablePred P] (f : Entry → Entry)
    (hnd : (b.map Prod.fst).Nodup) :
    dictGet (b.filterMap (fun e => if P e.2 then some (e.1, f e.2) else none)) v
      = (dictGet b v).bind (fun en => if P en then some (f en) else none) := by
  induction b with
  | nil => rfl
  | cons e0 rest ih =>
    obtain ⟨v0, en0⟩ := e0
    simp only [List.map_cons, List.nodup_cons] at hnd
    obtain ⟨hnot, hnd2⟩ := hnd
    by_cases hv : v0 = v
    · subst hv
      by_cases hp : P en0
      · simp only [List.filterMap_cons, if_pos hp, dictGet, eq_self_iff_true, if_true,
          Option.some_bind]
      · simp only [List.filterMap_cons, if_neg hp, dictGet, eq_self_iff_true, if_true,
          Option.some_bind, if_neg hp]
        rw [ih hnd2, dictGet_eq_none rest v0 hnot, Option.none_bind]
    · by_cases hp : P en0
      · simp only [List.filterMap_cons, if_pos hp, dictGet, if_neg hv]
        exact ih hnd2
      · simp only [List.filterMap_cons, if_neg hp, dictGet, if_neg hv]
        exact ih hnd2

/-- Restoring a serialized table shifts each surviving entry's expiry by
`time_passed`, keeps its ttl, and drops exactly the entries whose shifted
expiry is not in the future. -/
theorem entryIn_restore (s : Table) (tp now : Rat) (k v : String)
    (hwf : WFTable s) :
    entryIn (restore_from_serialized s tp now) k v
      = (entryIn s k v).bind (fun en =>
          if now < en.1 - tp then some (en.1 - tp, en.2) else none) := by
  unfold entryIn restore_from_serialized
  rw [dictGet_map_value]
  cases hd : dictGet s k with
  | none => rfl
  | some b =>
    simp only [Option.map_some', Option.some_bind]
    exact dictGet_filterMap b v (fun en => now < en.1 - tp)
      (fun en => (en.1 - tp, en.2)) (hwf _ (dictGet_mem hd))

/-- C7: `load_from_file` replaces the live tables wholesale (the prior
cache state is irrelevant), and in each table each snapshot entry is kept
iff its recomputed expiry `expiresAt - (now - snapshot.timestamp)` is
strictly greater than `now`, with exactly that recomputed expiry and with
its `ttlSeconds` carried through unchanged. -/
theorem load_restores_entries (c : DNSCache) (snap : Snapshot) (now : Rat)
    (k v : String)
    (hwf1 : WFTable snap.domain_to_ip) (hwf2 : WFTable snap.ip_to_domain)
    (hwf3 : WFTable snap.ns_records) :
    (∀ c2 : DNSCache, load_from_file c snap now = load_from_file c2 snap now) ∧
    entryIn (load_from_file c snap now).domain_to_ip k v
      = (entryIn snap.domain_to_ip k v).bind (fun en =>
          if now < en.1 - (now - snap.timestamp)
          then some (en.1 - (now - snap.timestamp), en.2) else none) ∧
    entryIn (load_from_file c snap now).ip_to_domain k v
      = (entryIn snap.ip_to_domain k v).bind (fun en =>
          if now < en.1 - (now - snap.timestamp)
          then some (en.1 - (now - snap.timestamp), en.2) else none) ∧
    entryIn (load_from_file c snap now).ns_records k v
      = (entryIn snap.ns_records k v).bind (fun en =>
          if now < en.1 - (now - snap.timestamp)
          then some (en.1 - (now - snap.timestamp), en.2) else none) :=
  ⟨fun _ => rfl,
    entryIn_restore _ _ _ _ _ hwf1,
    entryIn_restore _ _ _ _ _ hwf2,
    entryIn_restore _ _ _ _ _ hwf3⟩

/-- C7, witness: a snapshot taken at time 0 holding an entry expiring at
10, restored at time 3, keeps the entry with expiry 7 and ttl 10. -/
theorem load_restores_entries_witness :
    entryIn (load_from_file ⟨[], [], []⟩
        ⟨[("d", [("i", (10, 10))])], [], [], 0⟩ 3).domain_to_ip "d" "i"
      = some (7, 10) := by
  have h := load_restores_entries ⟨[], [], []⟩
    ⟨[("d", [("i", (10, 10))])], [], [], 0⟩ 3 "d" "i"
    (by intro kb hkb; simp only [List.mem_singleton] at hkb; rw [hkb]; simp)
    (by intro kb hkb; cases hkb) (by intro kb hkb; cases hkb)
  rw [h.2.1]
  norm_num [entryIn, dictGet]

/-- Decomposition of a successfully built response into the literal header,
question and answers-section bytes `_build_response` concatenates. -/
theorem build_response_decomp (tid query qtype : List Nat) (answers : List (List Nat))
    (msg : List Nat) (hb : build_response tid query qtype answers = some msg) :
    ∃ enc cnt sec, encode_name query = some enc ∧ pack16 answers.length = some cnt ∧
      build_answers_section qtype answers = some sec ∧
      cnt = [answers.length / 256, answers.length % 256] ∧ answers.length < 65536 ∧
      msg = tid ++ [0x81, 0x80, 0, 1] ++ cnt ++ [0, 0, 0, 0] ++
        enc ++ qtype ++ [0, 1] ++ sec := by
  unfold build_response at hb
  rw [Option.bind_eq_some] at hb
  obtain ⟨cnt, hcnt, hb⟩ := hb
  rw [Option.bind_eq_some] at hb
  obtain ⟨enc, henc, hb⟩ := hb
  rw [Option.map_eq_some'] at hb
  obtain ⟨sec, hsec, hmsg⟩ := hb
  have hc2 : cnt = [answers.length / 256, answers.length % 256] ∧
      answers.length < 65536 := by
    unfold pack16 at hcnt
    split at hcnt
    · cases hcnt
      exact ⟨rfl, by assumption⟩
    · cases hcnt
  exact ⟨enc, cnt, sec, henc, hcnt, hsec, hc2.1, hc2.2, hmsg.symm⟩

/-- Every record `_build_answers_section` emits for a supported qtype
starts with the compression pointer `c0 0c` and carries the fixed ttl
bytes `00 00 00 3c` (decimal 60) at record offsets 6–9. -/
theorem build_answers_decomp (qtype : List Nat) (answers : List (List Nat)) (s : List Nat)
    (hq : qtype = [0, 1] ∨ qtype = [0, 0x0c])
    (hb : build_answers_section qtype answers = some s) :
    ∃ rs : List (List Nat), s = rs.flatten ∧ rs.length = answers.length ∧
      ∀ r ∈ rs, r.take 2 = [0xc0, 0x0c] ∧ (r.drop 6).take 4 = [0, 0, 0, 0x3c] := by
  induction answers generalizing s with
  | nil =>
    refine ⟨[], ?_, rfl, by intro r hr; cases hr⟩
    unfold build_answers_section at hb
    cases hb
    rfl
  | cons a rest ih =>
    unfold build_answers_section at hb
    rw [Option.bind_eq_some] at hb
    obtain ⟨r, hr, hb⟩ := hb
    rw [Option.map_eq_some'] at hb
    obtain ⟨s2, hs2, hss⟩ := hb
    obtain ⟨rs, h1, h2, h3⟩ := ih s2 hs2
    refine ⟨r :: rs, ?_, by simp [h2], ?_⟩
    · rw [← hss, h1]
      rfl
    · intro r0 hr0
      rcases List.mem_cons.1 hr0 with rfl | h0
      · rcases hq with rfl | rfl
        · rw [answer_record, if_pos rfl, Option.map_eq_some'] at hr
          obtain ⟨ip, _, hrr⟩ := hr
          rw [← hrr]
          constructor <;> rfl
        · rw [answer_record, if_neg (by decide), if_pos rfl, Option.bind_eq_some] at hr
          obtain ⟨enc2, _, hr⟩ := hr
          rw [Option.map_eq_some'] at hr
          obtain ⟨lb, _, hrr⟩ := hr
          rw [← hrr]
          constructor <;> rfl
      · exact h3 r0 h0

/-- C4 amended: every message built by `_build_response` carries the fixed
flags word 0x8180 — a standard response (QR=1, opcode 0) with no error
(RCODE 0) in which the recursion-available bit IS set (not clear, as the
claim stated) — an answer count equal to the number of answer values, a
question count of 1, and authority and additional counts of 0. -/
theorem build_response_header (tid query qtype : List Nat) (answers : List (List Nat))
    (msg : List Nat) (htid : tid.length = 2)
    (hb : build_response tid query qtype answers = some msg) :
    (header_flags msg = some 0x8180 ∧
      0x8180 >>> 15 = 1 ∧ (0x8180 >>> 11) &&& 0xf = 0 ∧ 0x8180 &&& 0xf = 0 ∧
      (0x8180 >>> 7) &&& 1 = 1) ∧
    msg.get? 4 = some 0 ∧ msg.get? 5 = some 1 ∧
    (∃ hi lo, msg.get? 6 = some hi ∧ msg.get? 7 = some lo ∧
      hi * 256 + lo = answers.length) ∧
    msg.get? 8 = some 0 ∧ msg.get? 9 = some 0 ∧ msg.get? 10 = some 0 ∧
    msg.get? 11 = some 0 := by
  obtain ⟨enc, cnt, sec, henc, hcnt, hsec, hc, hlt, hmsg⟩ :=
    build_response_decomp tid query qtype answers msg hb
  obtain ⟨t0, t1, rfl⟩ := List.length_eq_two.1 htid
  subst hmsg hc
  refine ⟨⟨?_, by decide, by decide, by decide, by decide⟩, ?_, ?_, ?_, ?_, ?_, ?_, ?_⟩
  · unfold header_flags
    simp [List.get?]
  · simp [List.get?]
  · simp [List.get?]
  · exact ⟨answers.length / 256, answers.length % 256, by simp [List.get?],
      by simp [List.get?], by omega⟩
  · simp [List.get?]
  · simp [List.get?]
  · simp [List.get?]
  · simp [List.get?]

/-- C4 amended, witness. -/
theorem build_response_header_witness :
    (header_flags [0, 0, 129, 128, 0, 1, 0, 1, 0, 0, 0, 0, 1, 97, 0, 0, 1, 0, 1,
        192, 12, 0, 1, 0, 1, 0, 0, 0, 60, 0, 4, 1, 2, 3, 4] = some 0x8180 ∧
      0x8180 >>> 15 = 1 ∧ (0x8180 >>> 11) &&& 0xf = 0 ∧ 0x8180 &&& 0xf = 0 ∧
      (0x8180 >>> 7) &&& 1 = 1) ∧
    ([0, 0, 129, 128, 0, 1, 0, 1, 0, 0, 0, 0, 1, 97, 0, 0, 1, 0, 1,
        192, 12, 0, 1, 0, 1, 0, 0, 0, 60, 0, 4, 1, 2, 3, 4] : List Nat).get? 4 = some 0 ∧
    ([0, 0, 129, 128, 0, 1, 0, 1, 0, 0, 0, 0, 1, 97, 0, 0, 1, 0, 1,
        192, 12, 0, 1, 0, 1, 0, 0, 0, 60, 0, 4, 1, 2, 3, 4] : List Nat).get? 5 = some 1 ∧
    (∃ hi lo,
      ([0, 0, 129, 128, 0, 1, 0, 1, 0, 0, 0, 0, 1, 97, 0, 0, 1, 0, 1,
        192, 12, 0, 1, 0, 1, 0, 0, 0, 60, 0, 4, 1, 2, 3, 4] : List Nat).get? 6 = some hi ∧
      ([0, 0, 129, 128, 0, 1, 0, 1, 0, 0, 0, 0, 1, 97, 0, 0, 1, 0, 1,
        192, 12, 0, 1, 0, 1, 0, 0, 0, 60, 0, 4, 1, 2, 3, 4] : List Nat).get? 7 = some lo ∧
      hi * 256 + lo = 1) ∧
    ([0, 0, 129, 128, 0, 1, 0, 1, 0, 0, 0, 0, 1, 97, 0, 0, 1, 0, 1,
        192, 12, 0, 1, 0, 1, 0, 0, 0, 60, 0, 4, 1, 2, 3, 4] : List Nat).get? 8 = some 0 ∧
    ([0, 0, 129, 128, 0, 1, 0, 1, 0, 0, 0, 0, 1, 97, 0, 0, 1, 0, 1,
        192, 12, 0, 1, 0, 1, 0, 0, 0, 60, 0, 4, 1, 2, 3, 4] : List Nat).get? 9 = some 0 ∧
    ([0, 0, 129, 128, 0, 1, 0, 1, 0, 0, 0, 0, 1, 97, 0, 0, 1, 0, 1,
        192, 12, 0, 1, 0, 1, 0, 0, 0, 60, 0, 4, 1, 2, 3, 4] : List Nat).get? 10 = some 0 ∧
    ([0, 0, 129, 128, 0, 1, 0, 1, 0, 0, 0, 0, 1, 97, 0, 0, 1, 0, 1,
        192, 12, 0, 1, 0, 1, 0, 0, 0, 60, 0, 4, 1, 2, 3, 4] : List Nat).get? 11 = some 0 :=
  build_response_header [0, 0] [97] [0, 1] [[49, 46, 50, 46, 51, 46, 52]]
    [0, 0, 129, 128, 0, 1, 0, 1, 0, 0, 0, 0, 1, 97, 0, 0, 1, 0, 1,
      192, 12, 0, 1, 0, 1, 0, 0, 0, 60, 0, 4, 1, 2, 3, 4] (by decide) (by decide)

/-- In a built response, the bytes right after the 12-byte header are the
fresh encoding of the query name, and the bytes right after the question
section are the answers section. -/
theorem build_response_sections (tid query qtype : List Nat) (answers : List (List Nat))
    (msg enc : List Nat)
    (henc : encode_name query = some enc)
    (hqlen : qtype.length = 2)
    (hb : build_response tid query qtype answers = some msg) :
    (msg.drop (tid.length + 10)).take enc.length = enc ∧
    ∃ sec, build_answers_section qtype answers = some sec ∧
      msg.drop (tid.length + 10 + enc.length + 4) = sec := by
  obtain ⟨enc2, cnt, sec, henc2, hcnt, hsec, hc, hlt, hmsg⟩ :=
    build_response_decomp tid query qtype answers msg hb
  rw [henc] at henc2
  cases henc2
  obtain ⟨q0, q1, rfl⟩ := List.length_eq_two.1 hqlen
  subst hc hmsg
  constructor
  · simp only [List.append_assoc]
    rw [List.drop_append 10]
    show List.take enc.length (enc ++ ([q0, q1] ++ ([0, 1] ++ sec))) = enc
    exact List.take_left _ _
  · refine ⟨sec, hsec, ?_⟩
    simp only [List.append_assoc]
    rw [(by omega :
      tid.length + 10 + enc.length + 4 = tid.length + (10 + (enc.length + 4)))]
    rw [List.drop_append, ← List.drop_drop]
    show List.drop (enc.length + 4) (enc ++ ([q0, q1] ++ ([0, 1] ++ sec))) = sec
    rw [List.drop_append 4]
    rfl

/-- C5 amended: the question name in a built response is emitted as a
fresh length-prefix encoding of the query name (the encoder output appears
verbatim at offset tid.length + 10, i.e. 12); it is each ANSWER record
whose name is the 2-byte compression pointer `c0 0c` to offset 12. -/
theorem build_response_question_fresh (tid query qtype : List Nat)
    (answers : List (List Nat)) (msg enc : List Nat)
    (henc : encode_name query = some enc)
    (hq : qtype = [0, 1] ∨ qtype = [0, 0x0c])
    (hb : build_response tid query qtype answers = some msg) :
    (msg.drop (tid.length + 10)).take enc.length = enc ∧
    ∃ rs : List (List Nat),
      msg.drop (tid.length + 10 + enc.length + 4) = rs.flatten ∧
      ∀ r ∈ rs, r.take 2 = [0xc0, 0x0c] := by
  have hqlen : qtype.length = 2 := by rcases hq with rfl | rfl <;> rfl
  obtain ⟨h1, sec, hsec, h2⟩ :=
    build_response_sections tid query qtype answers msg enc henc hqlen hb
  obtain ⟨rs, hrs1, _, hrs3⟩ := build_answers_decomp qtype answers sec hq hsec
  exact ⟨h1, rs, by rw [h2, hrs1], fun r hr => (hrs3 r hr).1⟩

/-- C5 amended, witness. -/
theorem build_response_question_fresh_witness :
    (([0, 0, 129, 128, 0, 1, 0, 1, 0, 0, 0, 0, 1, 97, 0, 0, 1, 0, 1,
        192, 12, 0, 1, 0, 1, 0, 0, 0, 60, 0, 4, 1, 2, 3, 4] : List Nat).drop 12).take 3
      = [1, 97, 0] ∧
    ∃ rs : List (List Nat),
      ([0, 0, 129, 128, 0, 1, 0, 1, 0, 0, 0, 0, 1, 97, 0, 0, 1, 0, 1,
        192, 12, 0, 1, 0, 1, 0, 0, 0, 60, 0, 4, 1, 2, 3, 4] : List Nat).drop 19
        = rs.flatten ∧
      ∀ r ∈ rs, r.take 2 = [0xc0, 0x0c] :=
  build_response_question_fresh [0, 0] [97] [0, 1] [[49, 46, 50, 46, 51, 46, 52]]
    [0, 0, 129, 128, 0, 1, 0, 1, 0, 0, 0, 0, 1, 97, 0, 0, 1, 0, 1,
      192, 12, 0, 1, 0, 1, 0, 0, 0, 60, 0, 4, 1, 2, 3, 4] [1, 97, 0]
    (by decide) (Or.inl rfl) (by decide)

/-- C9: every answer record in a message built by `_build_response` for a
supported qtype carries the fixed ttl bytes `00 00 00 3c` — exactly 60
seconds — at record offsets 6–9, for every answer value and independently
of any cache entry's true remaining ttl (the builder never receives a
ttl at all). -/
theorem answer_records_ttl_60 (tid query qtype : List Nat)
    (answers : List (List Nat)) (msg enc : List Nat)
    (henc : encode_name query = some enc)
    (hq : qtype = [0, 1] ∨ qtype = [0, 0x0c])
    (hb : build_response tid query qtype answers = some msg) :
    ∃ rs : List (List Nat),
      msg.drop (tid.length + 10 + enc.length + 4) = rs.flatten ∧
      rs.length = answers.length ∧
      ∀ r ∈ rs, (r.drop 6).take 4 = [0, 0, 0, 60] := by
  have hqlen : qtype.length = 2 := by rcases hq with rfl | rfl <;> rfl
  obtain ⟨_, sec, hsec, h2⟩ :=
    build_response_sections tid query qtype answers msg enc henc hqlen hb
  obtain ⟨rs, hrs1, hrs2, hrs3⟩ := build_answers_decomp qtype answers sec hq hsec
  exact ⟨rs, by rw [h2, hrs1], hrs2, fun r hr => (hrs3 r hr).2⟩

/-- C9, witness. -/
theorem answer_records_ttl_60_witness :
    ∃ rs : List (List Nat),
      ([0, 0, 129, 128, 0, 1, 0, 1, 0, 0, 0, 0, 1, 97, 0, 0, 1, 0, 1,
        192, 12, 0, 1, 0, 1, 0, 0, 0, 60, 0, 4, 1, 2, 3, 4] : List Nat).drop 19
        = rs.flatten ∧
      rs.length = 1 ∧
      ∀ r ∈ rs, (r.drop 6).take 4 = [0, 0, 0, 60] :=
  answer_records_ttl_60 [0, 0] [97] [0, 1] [[49, 46, 50, 46, 51, 46, 52]]
    [0, 0, 129, 128, 0, 1, 0, 1, 0, 0, 0, 0, 1, 97, 0, 0, 1, 0, 1,
      192, 12, 0, 1, 0, 1, 0, 0, 0, 60, 0, 4, 1, 2, 3, 4] [1, 97, 0]
    (by decide) (Or.inl rfl) (by decide)

/-- One-step unfolding of `parse_name_parts` at positive fuel. -/
theorem parse_name_parts_succ (data : List Nat) (off n : Nat) :
    parse_name_parts data off (n + 1) =
      match data.get? off with
      | none => .exn
      | some len =>
        if len = 0 then .ok ([], off + 1)
        else if len &&& 0xc0 = 0xc0 then
          match data.get? (off + 1) with
          | none => .exn
          | some b2 =>
            match parse_name_parts data ((len * 256 + b2) &&& 0x3fff) n with
            | .ok (parts, _) => .ok ([List.intercalate [46] parts], off + 2)
            | .exn => .exn
            | .spin => .spin
        else
          let label := (data.drop (off + 1)).take len
          if label.all (fun c => c < 128) then
            match parse_name_parts data (off + 1 + len) n with
            | .ok (parts, noff) => .ok (label :: parts, noff)
            | .exn => .exn
            | .spin => .spin
          else .exn := rfl

/-- Reading the byte right after a known prefix. -/
theorem get?_append_cons {α : Type} (pre rest : List α) (a : α) :
    (pre ++ a :: rest).get? pre.length = some a := by
  rw [List.get?_eq_getElem?, List.getElem?_append_right (le_refl _)]
  simp

/-- A DNS label length (at most 63) never has the two pointer tag bits. -/
theorem and_c0_eq_zero {n : Nat} (h : n ≤ 63) : n &&& 0xc0 = 0 := by
  apply Nat.eq_of_testBit_eq
  intro i
  rw [Nat.testBit_and, Nat.zero_testBit]
  rcases Nat.lt_or_ge i 6 with hi | hi
  · have h192 : (0xc0 : Nat).testBit i = false := by interval_cases i <;> decide
    rw [h192, Bool.and_false]
  · have hpow : (64 : Nat) ≤ 2 ^ i := by
      calc (64 : Nat) = 2 ^ 6 := by norm_num
      _ ≤ 2 ^ i := Nat.pow_le_pow_right (by norm_num) hi
    have hn : n.testBit i = false :=
      Nat.testBit_eq_false_of_lt (lt_of_le_of_lt h (lt_of_lt_of_le (by norm_num) hpow))
    rw [hn, Bool.false_and]

/-- The label-list encoding is at least as long as the list. -/
theorem length_le_flatten_length (ls : List (List Nat)) :
    ls.length ≤ ((ls.map (fun l => l.length :: l)).flatten).length := by
  induction ls with
  | nil => simp
  | cons l rest ih =>
    simp only [List.map_cons, List.flatten_cons, List.length_append, List.length_cons,
      List.length_map]
    omega

/-- Parsing the label-length encoding of a list of valid labels, placed
after an arbitrary prefix and before an arbitrary suffix, returns exactly
those labels and stops right after the zero terminator. -/
theorem parse_name_parts_encodeLabels (ls : List (List Nat)) :
    ∀ (pre post : List Nat) (fuel : Nat),
      (∀ l ∈ ls, l ≠ [] ∧ l.length ≤ 63 ∧ ∀ c ∈ l, c < 128) →
      ls.length < fuel →
      parse_name_parts
          (pre ++ ((ls.map (fun l => l.length :: l)).flatten ++ (0 :: post)))
          pre.length fuel
        = Res.ok (ls,
            pre.length + ((ls.map (fun l => l.length :: l)).flatten).length + 1) := by
  induction ls with
  | nil =>
    intro pre post fuel _ hfuel
    cases fuel with
    | zero => omega
    | succ n =>
      simp only [List.map_nil, List.flatten_nil, List.nil_append, List.length_nil]
      rw [parse_name_parts_succ, get?_append_cons]
      simp
  | cons l rest ih =>
    intro pre post fuel h hfuel
    obtain ⟨hl1, hl2, hl3⟩ := h l (List.mem_cons_self _ _)
    have hrest : ∀ l2 ∈ rest, l2 ≠ [] ∧ l2.length ≤ 63 ∧ ∀ c ∈ l2, c < 128 :=
      fun l2 hm => h l2 (List.mem_cons_of_mem _ hm)
    cases fuel with
    | zero => omega
    | succ n =>
      have hD : pre ++ (((l :: rest).map (fun l2 => l2.length :: l2)).flatten ++
            (0 :: post))
          = pre ++ (l.length ::
              (l ++ ((rest.map (fun l2 => l2.length :: l2)).flatten ++ (0 :: post)))) := by
        simp [List.append_assoc]
      rw [hD, parse_name_parts_succ, get?_append_cons]
      have hne0 : ¬(l.length = 0) := by
        intro h0
        exact hl1 (List.length_eq_zero.1 h0)
      have hnc : ¬(l.length &&& 0xc0 = 0xc0) := by
        rw [and_c0_eq_zero hl2]
        decide
      simp only [hne0, if_false, hnc]
      have hdrop : (pre ++ (l.length ::
            (l ++ ((rest.map (fun l2 => l2.length :: l2)).flatten ++ (0 :: post))))).drop
            (pre.length + 1)
          = l ++ ((rest.map (fun l2 => l2.length :: l2)).flatten ++ (0 :: post)) := by
        have : pre ++ (l.length ::
              (l ++ ((rest.map (fun l2 => l2.length :: l2)).flatten ++ (0 :: post))))
            = (pre ++ [l.length]) ++
              (l ++ ((rest.map (fun l2 => l2.length :: l2)).flatten ++ (0 :: post))) := by
          simp
        rw [this]
        exact List.drop_left' (by simp)
      rw [hdrop, List.take_left]
      have hall : l.all (fun c => decide (c < 128)) = true :=
        List.all_eq_true.2 (fun c hc => decide_eq_true (hl3 c hc))
      simp only [hall, if_true]
      have hD2 : pre ++ (l.length ::
            (l ++ ((rest.map (fun l2 => l2.length :: l2)).flatten ++ (0 :: post))))
          = (pre ++ (l.length :: l)) ++
            ((rest.map (fun l2 => l2.length :: l2)).flatten ++ (0 :: post)) := by
        simp [List.append_assoc]
      have hoff : pre.length + 1 + l.length = (pre ++ (l.length :: l)).length := by
        simp
        omega
      rw [hD2, hoff, ih (pre ++ (l.length :: l)) post n hrest (by
        simp only [List.length_cons] at hfuel
        omega)]
      simp only [Res.ok.injEq, Prod.mk.injEq]
      refine ⟨trivial, ?_⟩
      simp [List.length_append]
      omega

/-- C8: name codec round trip.  For a valid dotted name — every label
non-empty, at most 63 bytes, pure ASCII — whose encoding is at most 255
bytes, decoding the encoding from offset 0 (with fuel covering the whole
input, which suffices since no label consumes less than one byte) returns
exactly the original dotted name and a next-offset equal to the length of
the encoding: `decodeName(encodeName(name), 0) == (name, len(encoded))`. -/
theorem name_codec_round_trip (name enc : List Nat)
    (hvalid : ∀ l ∈ name.splitOn 46, l ≠ [] ∧ l.length ≤ 63 ∧ ∀ c ∈ l, c < 128)
    (henc : encode_name name = some enc)
    (hlen : enc.length ≤ 255) :
    parse_name enc 0 enc.length = Res.ok (name, enc.length) := by
  simp only [encode_name] at henc
  split at henc
  · cases henc
    have hfuel : (name.splitOn 46).length <
        (((name.splitOn 46).map (fun l : List Nat => l.length :: l)).flatten
          ++ [0]).length := by
      have := length_le_flatten_length (name.splitOn 46)
      simp only [List.length_append, List.length_cons, List.length_nil]
      omega
    have hmain := parse_name_parts_encodeLabels (name.splitOn 46) [] []
      ((((name.splitOn 46).map (fun l : List Nat => l.length :: l)).flatten
        ++ [0]).length)
      hvalid hfuel
    simp only [List.nil_append, List.length_nil, Nat.zero_add] at hmain
    unfold parse_name
    rw [hmain]
    simp [List.intercalate_splitOn, List.length_append]
  · exact Option.noConfusion henc

/-- C8, witness: the name "ab.c". -/
theorem name_codec_round_trip_witness :
    parse_name [2, 97, 98, 1, 99, 0] 0 6 = Res.ok ([97, 98, 46, 99], 6) :=
  name_codec_round_trip [97, 98, 46, 99] [2, 97, 98, 1, 99, 0]
    (by decide) (by decide) (by decide)
